import Mathlib

/-!
Shallow embedding of the nanocode agent shell (`src/index.ts`, Bun/TypeScript):
the tool handlers that operate on file contents, the subprocess execution
engine's pure parts (timeout clamp, output-line collection, result assembly),
the tool registry with its schema generation, the dispatch boundary `runTool`,
and the REPL/agent orchestration loop (`main`).

JavaScript numbers are modelled by `JSNum` (an integer, NaN, or an infinity);
argument maps are flat association lists of primitive values, as the capability
contract requires; the filesystem is an association list from path to content;
the model transport is modelled by a script of responses (the orchestrator
treats it as an opaque request/response boundary); SIGINT arrival is modelled
by a schedule `sig : Nat -> Bool` read at the loop-boundary checks of
`stopRequested`.
-/

namespace Nanocode

/-- JavaScript number: NaN, the two infinities, or a finite value.  Finite
values are modelled as integers (every value the program manipulates as a
timeout, offset, limit, token count or exit code is integral). -/
inductive JSNum where
  | nan
  | negInf
  | posInf
  | fin (n : Int)
deriving DecidableEq, Repr

/-- JS `Math.max` on two numbers: NaN-propagating, infinity-aware. -/
def jsMax : JSNum → JSNum → JSNum
  | .nan, _ => .nan
  | _, .nan => .nan
  | .posInf, _ => .posInf
  | _, .posInf => .posInf
  | .negInf, b => b
  | a, .negInf => a
  | .fin a, .fin b => .fin (max a b)

/-- JS `Math.min` on two numbers: NaN-propagating, infinity-aware. -/
def jsMin : JSNum → JSNum → JSNum
  | .nan, _ => .nan
  | _, .nan => .nan
  | .negInf, _ => .negInf
  | _, .negInf => .negInf
  | .posInf, b => b
  | a, .posInf => a
  | .fin a, .fin b => .fin (min a b)

/-- JS `+` on two numbers. -/
def jsAdd : JSNum → JSNum → JSNum
  | .nan, _ => .nan
  | _, .nan => .nan
  | .posInf, .negInf => .nan
  | .negInf, .posInf => .nan
  | .posInf, _ => .posInf
  | _, .posInf => .posInf
  | .negInf, _ => .negInf
  | _, .negInf => .negInf
  | .fin a, .fin b => .fin (a + b)

/-- JS string rendering of a number, as in template literals. -/
def jsNumToString : JSNum → String
  | .nan => "NaN"
  | .negInf => "-Infinity"
  | .posInf => "Infinity"
  | .fin n => toString n

/-- Primitive JS value carried in a flat tool-argument map. -/
inductive Value where
  | str (s : String)
  | num (n : JSNum)
  | bool (b : Bool)
deriving DecidableEq, Repr

/-- Flat argument map (string key to primitive value), mirroring `ToolArgs =
Record<string, unknown>` restricted to the flat maps the capability contract
supports. -/
abbrev ToolArgs := List (String × Value)

/-- Property lookup `args.k` on an argument map; `none` models `undefined`. -/
def lookupArg (args : ToolArgs) (k : String) : Option Value :=
  (args.find? (·.1 == k)).map (·.2)

/-- JS truthiness of a possibly-undefined primitive value: `undefined`, `""`,
`0`, `NaN` and `false` are falsy, everything else truthy. -/
def truthy : Option Value → Bool
  | none => false
  | some (.str s) => s ≠ ""
  | some (.num (.fin k)) => k ≠ 0
  | some (.num .nan) => false
  | some (.num _) => true
  | some (.bool b) => b

/-- JS string coercion of a possibly-undefined primitive value (`undefined`
renders as "undefined"). -/
def jsToString : Option Value → String
  | none => "undefined"
  | some (.str s) => s
  | some (.num n) => jsNumToString n
  | some (.bool b) => cond b "true" "false"

/-- JS `ToNumber` coercion of a primitive value.  String coercion is modelled
for integer-literal and blank strings; every tool parameter the schema declares
numeric is delivered as a number, so the string case is unreachable in the
modelled runs. -/
def jsToNumber : Value → JSNum
  | .num n => n
  | .bool b => .fin (cond b 1 0)
  | .str s => if s.trim = "" then .fin 0 else
      match s.trim.toInt? with
      | some n => .fin n
      | none => .nan

/-- Splitting a character sequence at every occurrence of one separator
character, as JS `text.split(sep)` does for a one-character separator (the
separators are consumed; an empty text yields one empty piece). -/
def splitOnChar (sep : Char) : List Char → List (List Char)
  | [] => [[]]
  | c :: rest =>
    match splitOnChar sep rest with
    | [] => []
    | l :: ls => if c = sep then [] :: l :: ls else (c :: l) :: ls

/-- Fuel-driven worker for `splitList`: splits at every leftmost
non-overlapping occurrence of the (nonempty) pattern, consuming at least one
character per fuel unit, so fuel equal to the text length suffices. -/
def splitListAux (pat : List Char) : Nat → List Char → List (List Char)
  | _, [] => [[]]
  | 0, s => [s]
  | fuel + 1, c :: rest =>
    if pat.isPrefixOf (c :: rest) then
      [] :: splitListAux pat fuel ((c :: rest).drop pat.length)
    else
      match splitListAux pat fuel rest with
      | [] => [rest]
      | l :: ls => (c :: l) :: ls

/-- JS `text.split(pat)` for a nonempty string pattern: the pieces between the
leftmost non-overlapping occurrences of `pat`. -/
def splitList (pat s : List Char) : List (List Char) :=
  splitListAux pat s.length s

/-- Joining pieces with a separator sequence (the inverse direction of
`splitList`). -/
def joinSep (sep : List Char) : List (List Char) → List Char
  | [] => []
  | [x] => x
  | x :: y :: rest => x ++ sep ++ joinSep sep (y :: rest)

/-- Number of pieces of JS `text.split(old)`; for an empty separator JS splits
into single characters, giving `text.length` pieces. -/
def jsSplitLen (text old : String) : Nat :=
  if old = "" then text.length else (splitList old.data text.data).length

/-- JS `text.includes(old)`: substring test, characterised through the split
(a nonempty pattern occurs in `text` iff splitting on it yields at least two
pieces; the empty string is included in every string). -/
def jsIncludes (text old : String) : Bool :=
  old == "" || (splitList old.data text.data).length != 1

/-- JS `text.replace(old, new)` with a string pattern: replaces the first
occurrence only (prepends for an empty pattern). -/
def jsReplaceFirst (text old repl : String) : String :=
  if old = "" then repl ++ text else
    match splitList old.data text.data with
    | [] => text
    | [_] => text
    | x :: rest => String.mk (x ++ repl.data ++ joinSep old.data rest)

/-- JS `text.replaceAll(old, new)` with a string pattern (for an empty pattern
JS inserts the replacement between every character and at both ends). -/
def jsReplaceAll (text old repl : String) : String :=
  if old = "" then String.mk (repl.data ++ text.data.flatMap (fun c => [c] ++ repl.data))
  else String.mk (joinSep repl.data (splitList old.data text.data))

/-- JS `s.endsWith(t)`. -/
def jsEndsWith (s t : String) : Bool :=
  t.data.isSuffixOf s.data

/-- JS `line.trim()`: strips whitespace from both ends. -/
def jsTrim (s : String) : String :=
  String.mk (((s.data.dropWhile Char.isWhitespace).reverse.dropWhile Char.isWhitespace).reverse)

/-- JS `String.prototype.padStart(n)` with the default space pad. -/
def padStart (s : String) (n : Nat) : String :=
  String.mk (List.replicate (n - s.length) ' ') ++ s

/-- Normalisation of a JS number into an array index as `Array.prototype.slice`
performs it (`ToIntegerOrInfinity` then clamping into `[0, n]`, negative values
counting from the end). -/
def sliceIdx (n : Nat) : JSNum → Nat
  | .nan => 0
  | .negInf => 0
  | .posInf => n
  | .fin i => if i < 0 then ((n : Int) + i).toNat else min i.toNat n

/-- JS `arr.slice(start)`. -/
def jsSlice1 (l : List α) (s : JSNum) : List α :=
  l.drop (sliceIdx l.length s)

/-- JS `arr.slice(start, stop)`. -/
def jsSlice2 (l : List α) (s e : JSNum) : List α :=
  (l.take (sliceIdx l.length e)).drop (sliceIdx l.length s)

/-- Filesystem model: association list from path to file content. -/
abbrev FS := List (String × String)

/-- Reading a file (`Bun.file(path).text()`): the content when the path
exists; a missing path makes the runtime throw, modelled by `Except.error`
with a fixed stand-in for the runtime's system-error message. -/
def fsRead (fs : FS) (p : String) : Except String String :=
  match fs.find? (·.1 == p) with
  | some e => .ok e.2
  | none => .error ("ENOENT: no such file or directory: " ++ p)

/-- Writing a file (`Bun.write`): updates the entry in place or appends it. -/
def fsWrite (fs : FS) (p s : String) : FS :=
  if (fs.find? (·.1 == p)).isSome then
    fs.map (fun e => if e.1 == p then (p, s) else e)
  else fs ++ [(p, s)]

/-- Environment-sourced configuration read once at startup (src/index.ts lines
8-9).  Every tool handler closes over these globals, so the handler embeddings
take a `Config`; `MAX_FILE_SIZE` is defined at line 9 and referenced nowhere
else in the source. -/
structure Config where
  GREP_LIMIT : Int
  MAX_FILE_SIZE : Int
deriving DecidableEq, Repr

/-- The `getPath` helper (src/index.ts lines 48-52): `args.path ||
args.file_path`, throwing `Error("path parameter is required")` when the result
is falsy.  The thrown value's string form is the error payload, as `runTool`'s
catch renders it. -/
def getPath (args : ToolArgs) : Except String String :=
  let path := if truthy (lookupArg args "path") then lookupArg args "path"
              else lookupArg args "file_path"
  if truthy path then .ok (jsToString path) else .error "Error: path parameter is required"

/-- The `read` tool handler (src/index.ts lines 57-62): splits the file on
newlines, applies the optional `offset`/`limit` window via `Array.slice`, and
renders each selected line as `String(offset+index+1).padStart(4) + "| " +
line` joined by newlines.  The body never consults the configuration. -/
def read (_cfg : Config) (fs : FS) (args : ToolArgs) : Except String String := do
  let path ← getPath args
  let text ← fsRead fs path
  let lines := (splitOnChar '\n' text.data).map String.mk
  let offset : JSNum := match lookupArg args "offset" with
    | none => .fin 0
    | some v => jsToNumber v
  let selected := if truthy (lookupArg args "limit")
    then jsSlice2 lines offset (jsAdd offset (jsToNumber ((lookupArg args "limit").getD (.bool false))))
    else jsSlice1 lines offset
  pure (String.intercalate "\n" (selected.mapIdx fun i line =>
    padStart (jsNumToString (jsAdd offset (.fin ((i : Int) + 1)))) 4 ++ "| " ++ line))

/-- The `write` tool handler (src/index.ts lines 64-67). -/
def write (_cfg : Config) (fs : FS) (args : ToolArgs) : Except String (String × FS) := do
  let path ← getPath args
  pure ("ok", fsWrite fs path (jsToString (lookupArg args "content")))

/-- The `edit` tool handler (src/index.ts lines 69-82): requires the old
string to occur, refuses an ambiguous replacement (`count > 1` without a
truthy `all`), otherwise rewrites the file with `replaceAll`/`replace`. -/
def edit (_cfg : Config) (fs : FS) (args : ToolArgs) : Except String (String × FS) := do
  let path ← getPath args
  let text ← fsRead fs path
  let oldString := jsToString (lookupArg args "old")
  if jsIncludes text oldString = false then
    pure ("error: old_string not found", fs)
  else
    let count : Int := (jsSplitLen text oldString : Int) - 1
    if truthy (lookupArg args "all") = false ∧ count > 1 then
      pure (s!"error: old_string appears {count} times, use all=true", fs)
    else
      let newText := if truthy (lookupArg args "all")
        then jsReplaceAll text oldString (jsToString (lookupArg args "new"))
        else jsReplaceFirst text oldString (jsToString (lookupArg args "new"))
      pure ("ok", fsWrite fs path newText)

/-- The execution engine's timeout clamp (src/index.ts line 127):
`Math.min(Math.max(args.timeout as number, 1000), 300000)`, applied to the
caller-supplied value after JS number coercion. -/
def timeoutMs (raw : JSNum) : JSNum :=
  jsMin (jsMax raw (.fin 1000)) (.fin 300000)

/-- Whether a clamped bound is a finite value inside the documented inclusive
range of 1,000 to 300,000 milliseconds. -/
def inTimeoutRange : JSNum → Bool
  | .fin n => 1000 ≤ n ∧ n ≤ 300000
  | _ => false

/-- The `readStream` drain of one output channel of the spawned subprocess
(src/index.ts lines 136-150): every drained chunk is decoded and split on
newlines, the nonempty pieces are appended to the transcript prefixed with the
channel tag.  Chunks are modelled as already-decoded character sequences (the
incremental `TextDecoder` reassembles multi-byte sequences split across
chunks, so the decoded text of each chunk is what the splitting sees). -/
def readStream (tag : List Char) (chunks : List (List Char)) : List (List Char) :=
  chunks.flatMap fun chunk =>
    ((splitOnChar '\n' chunk).filter (· ≠ [])).map (tag ++ ·)

/-- The complete nonempty lines of a whole decoded stream: split the
concatenation of all chunks at newlines and drop empty pieces. -/
def streamLines (chunks : List (List Char)) : List (List Char) :=
  (splitOnChar '\n' chunks.flatten).filter (· ≠ [])

/-- The execution engine's result assembly (src/index.ts lines 159-160): the
transcript joined by newlines, the `(no output)` sentinel when that join is
empty, then exactly one terminal marker: the timeout marker when the kill
timer fired, else the exit-code marker. -/
def execResult (output : List String) (killed : Bool) (t : JSNum) (exitCode : Int) : String :=
  let result := if String.intercalate "\n" output = "" then "(no output)"
                else String.intercalate "\n" output
  if killed then result ++ "\n[TIMEOUT after " ++ jsNumToString t ++ "ms]"
  else result ++ "\n[exit: " ++ toString exitCode ++ "]"

/-- The static registry `TOOLS` (src/index.ts lines 56-212): name, description
and declared parameter shape of each of the ten capabilities, in declaration
order (JS object literals preserve insertion order under `Object.entries`).
The handlers are modelled separately (`read`, `write`, `edit`, `timeoutMs`,
`execResult`, `readStream` above; the remaining handlers run OS-level I/O
outside this embedding) and dispatched generically by `runTool`. -/
def TOOLS : List (String × String × List (String × String)) :=
  [ ("read", "Read file with line numbers",
      [("path", "string"), ("offset", "number?"), ("limit", "number?")]),
    ("write", "Write content to file",
      [("path", "string"), ("content", "string")]),
    ("edit", "Replace old with new in file",
      [("path", "string"), ("old", "string"), ("new", "string"), ("all", "boolean?")]),
    ("glob", "Find files by pattern",
      [("pattern", "string"), ("path", "string?")]),
    ("grep", "Search files for regex",
      [("pattern", "string"), ("path", "string?")]),
    ("exec", "Execute shell command with live output and timeout",
      [("command", "string"), ("timeout", "number")]),
    ("list", "List directory",
      [("path", "string"), ("recursive", "boolean?")]),
    ("delete", "Delete file/directory",
      [("path", "string"), ("recursive", "boolean?")]),
    ("move", "Move or rename",
      [("from", "string"), ("to", "string")]),
    ("copy", "Copy file/directory",
      [("from", "string"), ("to", "string"), ("recursive", "boolean?")]) ]

/-- One element of the capability schema sent to the transport. -/
structure SchemaEntry where
  name : String
  description : String
  propTypes : List (String × String)
  required : List String
deriving DecidableEq, Repr

/-- The declared-type-to-schema-type map of `makeSchema`:
`value.replace("?", "") === "number" ? "integer" : value.replace("?", "")`,
where JS `replace` with a string pattern replaces the first occurrence. -/
def schemaType (v : String) : String :=
  if jsReplaceFirst v "?" "" == "number" then "integer" else jsReplaceFirst v "?" ""

/-- `makeSchema` (src/index.ts lines 222-233): one schema entry per registry
entry; each parameter's exposed type strips the optional sentinel and renders
numbers as integers; `required` keeps exactly the parameters whose declared
type does not end with the "?" sentinel. -/
def makeSchema : List SchemaEntry :=
  TOOLS.map fun t =>
    { name := t.1
      description := t.2.1
      propTypes := t.2.2.map (fun p => (p.1, schemaType p.2))
      required := (t.2.2.filter (fun p => !(jsEndsWith p.2 "?"))).map (·.1) }

/-- `runTool` (src/index.ts lines 214-220): dispatch over a table of handlers,
each of which may throw (`Except.error` carries the string form of the thrown
value).  An unknown name yields the unknown-tool error text; a thrown fault is
caught at this boundary and rendered as `error: ...` text; the return type
`String` is total, so no fault ever escapes to the caller.  (Keys inherited
from `Object.prototype`, such as "constructor", make the runtime throw a
`TypeError` inside the try block, which the same catch turns into error text;
the table model treats them as absent names.) -/
def runTool (tools : List (String × (ToolArgs → Except String String)))
    (name : String) (args : ToolArgs) : String :=
  match tools.find? (·.1 == name) with
  | none => "error: unknown tool " ++ name
  | some t =>
    match t.2 args with
    | .ok s => s
    | .error e => "error: " ++ e

/-- One content block of a transport response (src/index.ts lines 20-26): a
tagged record whose optional fields carry the display text of a `text` block
or the identifier, capability name and argument map of a `tool_use`
(capability-invocation) block. -/
structure ContentBlock where
  type : String
  text : Option String := none
  id : Option String := none
  name : Option String := none
  input : Option ToolArgs := none
deriving DecidableEq, Repr

/-- One capability-result segment (src/index.ts lines 33-37). -/
structure ToolResult where
  type : String
  tool_use_id : String
  content : String
deriving DecidableEq, Repr

/-- Content of one conversation turn: raw text, a model response's blocks, or
a batch of tool results (src/index.ts lines 28-31). -/
inductive MContent where
  | str (s : String)
  | blocks (bs : List ContentBlock)
  | results (rs : List ToolResult)
deriving DecidableEq, Repr

/-- One role-tagged conversation turn. -/
structure Message where
  role : String
  content : MContent
deriving DecidableEq, Repr

/-- A successful transport response: optional content blocks and optional
usage counters (input units, output units), as in src/index.ts lines 39-46.
A transport-level fault is the `Except.error` side of the transport script. -/
structure APIResponse where
  content : Option (List ContentBlock) := none
  usage : Option (Nat × Nat) := none
deriving DecidableEq, Repr

/-- The guard of the dispatch branch of the orchestrator loop (src/index.ts
line 319): `block.type === "tool_use" && block.name && block.input &&
block.id` — the block is a well-formed capability-invocation segment exactly
when its name and identifier are nonempty strings and its argument object is
present (per the wire contract, an invocation segment carries all three). -/
def isToolUse (b : ContentBlock) : Bool :=
  b.type == "tool_use" && (b.name.getD "") ≠ "" && b.input.isSome && (b.id.getD "") ≠ ""

/-- The tool results collected from one response's blocks (src/index.ts lines
316-326): one `tool_result` per well-formed invocation block, in block order,
carrying the invocation's identifier and the dispatched result text. -/
def mkToolResults (runT : String → ToolArgs → String) (blocks : List ContentBlock) :
    List ToolResult :=
  blocks.filterMap fun b =>
    if isToolUse b then
      some ⟨"tool_result", b.id.getD "", runT (b.name.getD "") (b.input.getD [])⟩
    else none

/-- Outcome of one transport round of the orchestrator loop. -/
inductive RoundOut where
  | throws (e : String)
  | finished (msgs : List Message) (tin tout : Nat)
  | next (msgs : List Message) (tin tout : Nat)
deriving DecidableEq, Repr

/-- One round of the agent loop body (src/index.ts lines 307-331): a
transport fault propagates (`throws`, leaving the conversation and counters as
they were); otherwise usage is accumulated, every well-formed invocation block
is dispatched, the whole response is appended as one assistant turn, and
either the loop terminates (`finished`: no tool results) or the collected
results are appended as one user turn and the loop continues (`next`). -/
def doRound (runT : String → ToolArgs → String) (resp : Except String APIResponse)
    (msgs : List Message) (tin tout : Nat) : RoundOut :=
  match resp with
  | .error e => .throws e
  | .ok r =>
    let tin' := tin + ((r.usage.map Prod.fst).getD 0)
    let tout' := tout + ((r.usage.map Prod.snd).getD 0)
    let blocks := r.content.getD []
    let toolResults := mkToolResults runT blocks
    let msgs' := msgs ++ [⟨"assistant", .blocks blocks⟩]
    if toolResults.isEmpty then .finished msgs' tin' tout'
    else .next (msgs' ++ [⟨"user", .results toolResults⟩]) tin' tout'

/-- Final state of one user request's agent loop: conversation, the two usage
totals, the displayed transport error if the request aborted, and the
cancellation flag as last observed. -/
structure LoopRes where
  msgs : List Message
  tin : Nat
  tout : Nat
  err : Option String
  stop : Bool
deriving DecidableEq, Repr

/-- The `while (!stopRequested)` agent loop (src/index.ts lines 306-332),
driven by a finite transport script.  `sig round` tells whether a SIGINT has
arrived by the time the loop condition is evaluated for that round; the flag,
once observed set, ends the loop with the conversation exactly as the
completed rounds left it.  Alongside the outcome the loop records the
conversation snapshot passed to each transport call (`callAPI(messages, ...)`
reads the shared `messages` at the top of the round).  `none` means the
modelled script is shorter than the run it would need. -/
def runLoop (runT : String → ToolArgs → String) (sig : Nat → Bool)
    (script : List (Except String APIResponse)) (round : Nat) (flag : Bool)
    (msgs : List Message) (tin tout : Nat) :
    Option LoopRes × List (List Message) :=
  let flag' := flag || sig round
  if flag' then (some ⟨msgs, tin, tout, none, flag'⟩, [])
  else
    match script with
    | [] => (none, [])
    | r :: rest =>
      match doRound runT r msgs tin tout with
      | .throws e => (some ⟨msgs, tin, tout, some e, flag'⟩, [msgs])
      | .finished m i o => (some ⟨m, i, o, none, flag'⟩, [msgs])
      | .next m i o =>
        let res := runLoop runT sig rest (round + 1) flag' m i o
        (res.1, msgs :: res.2)

/-- The REPL session state owned by the orchestrator (src/index.ts lines
271-274 and 15): the conversation, the two usage totals, and the process-wide
cancellation flag. -/
structure ReplState where
  messages : List Message
  totalInputTokens : Nat
  totalOutputTokens : Nat
  stopRequested : Bool
deriving DecidableEq, Repr

/-- Outcome of feeding one input line to the REPL. -/
inductive StepOut where
  | quit
  | cont (st : ReplState) (calls : List (List Message)) (err : Option String)
  | fuel
deriving DecidableEq, Repr

/-- One iteration of the REPL input loop (src/index.ts lines 279-344): trim
the line; `/q` or `exit` quits; `/c` empties the conversation and zeroes both
usage counters; an empty line is a no-op; otherwise the user turn is appended,
the cancellation flag is assigned `false`, and the agent loop runs.  `calls`
collects the conversation snapshot of every transport call the request
issued. -/
def stepInput (runT : String → ToolArgs → String) (st : ReplState) (line : String)
    (sig : Nat → Bool) (script : List (Except String APIResponse)) : StepOut :=
  let userInput := jsTrim line
  if userInput == "/q" || userInput == "exit" then .quit
  else if userInput == "/c" then .cont ⟨[], 0, 0, st.stopRequested⟩ [] none
  else if userInput == "" then .cont st [] none
  else
    match runLoop runT sig script 0 false (st.messages ++ [⟨"user", .str userInput⟩])
        st.totalInputTokens st.totalOutputTokens with
    | (none, _) => .fuel
    | (some res, tr) => .cont ⟨res.msgs, res.tin, res.tout, res.stop⟩ tr res.err

/-- A whole session (`main`, src/index.ts lines 266-345): the REPL loop over a
list of input lines, each with its SIGINT schedule and transport script.
Returns the final state and every transport-call conversation snapshot of the
session, or `none` when a request outran its modelled script. -/
def runSession (runT : String → ToolArgs → String) (st : ReplState)
    (inputs : List (String × (Nat → Bool) × List (Except String APIResponse))) :
    Option (ReplState × List (List Message)) :=
  match inputs with
  | [] => some (st, [])
  | (line, sig, script) :: rest =>
    match stepInput runT st line sig script with
    | .quit => some (st, [])
    | .fuel => none
    | .cont st' calls _ =>
      match runSession runT st' rest with
      | none => none
      | some (stf, calls') => some (stf, calls ++ calls')

/-- The identifiers of the capability-invocation segments of a conversation,
in order: for every assistant blocks-turn, the identifiers of its well-formed
`tool_use` blocks. -/
def invocationIds (msgs : List Message) : List String :=
  msgs.flatMap fun m =>
    match m.content with
    | .blocks bs => (bs.filter isToolUse).map (fun b => b.id.getD "")
    | _ => []

/-- The identifiers carried by the capability-result segments of a
conversation, in order. -/
def resultIds (msgs : List Message) : List String :=
  msgs.flatMap fun m =>
    match m.content with
    | .results rs => rs.map (·.tool_use_id)
    | _ => []

/-- Whether a conversation's capability-invocation identifiers and
capability-result identifiers coincide, in order and multiplicity: no orphaned
invocation or result, every pairing sharing its identifier. -/
def balanced (msgs : List Message) : Prop :=
  invocationIds msgs = resultIds msgs

/-- Handler table used to witness the dispatch contract: one handler that
throws and one that succeeds. -/
def c4tools : List (String × (ToolArgs → Except String String)) :=
  [("boom", fun _ => .error "Error: kaput"), ("fine", fun _ => .ok "done")]

/-- Concrete edit-capability invocation: the old string "x" occurs three times
in "axbxcx" and no replace-all flag is supplied. -/
def c7args : ToolArgs := [("path", .str "f.txt"), ("old", .str "x"), ("new", .str "y")]

/-- Concrete single-file filesystem for the C7 witness. -/
def c7fs : FS := [("f.txt", "axbxcx")]

/-- Concrete arguments for the C10 witness: a plain read of one file. -/
def c10args : ToolArgs := [("path", .str "big.txt")]

/-- Concrete filesystem for the C10 witness. -/
def c10fs : FS := [("big.txt", "l1\nl2\nl3")]

/-- Concrete tool runner for loop-level instances: every dispatch returns
"ok". -/
def demoRunT : String → ToolArgs → String := fun _ _ => "ok"

/-- Concrete well-formed invocation block. -/
def demoBlock : ContentBlock :=
  { type := "tool_use", id := some "toolu_1", name := some "exec",
    input := some [("command", Value.str "ls"), ("timeout", Value.num (.fin 5000))] }

/-- Concrete text block. -/
def demoText : ContentBlock := { type := "text", text := some "done" }

/-- SIGINT schedule that fires between the first and second loop-boundary
checks. -/
def sigAfterFirst : Nat → Bool := fun n => n == 1

/-- Transport script with one tool-requesting response. -/
def demoScript : List (Except String APIResponse) :=
  [.ok { content := some [demoBlock] }]

/-- Conversation holding one user turn. -/
def demoStart : List Message := [⟨"user", .str "go"⟩]

/-- The assistant turn the demo response appends. -/
def demoAssistant : Message := ⟨"assistant", .blocks [demoBlock]⟩

/-- The tool-result turn the demo response appends. -/
def demoResults : Message := ⟨"user", .results [⟨"tool_result", "toolu_1", "ok"⟩]⟩

/-- Session input list for the C1 witness: one request whose first response
invokes a capability and whose second is text-only. -/
def demoInputs : List (String × (Nat → Bool) × List (Except String APIResponse)) :=
  [("hi", fun _ => false,
    [.ok { content := some [demoBlock], usage := some (3, 5) },
     .ok { content := some [demoText], usage := some (2, 1) }])]

/-- A string with a nonempty right append operand is nonempty. -/
theorem append_ne_empty_right (a b : String) (h : b ≠ "") : a ++ b ≠ "" := by
  intro hc
  apply h
  have hd := congrArg String.data hc
  rw [String.data_append] at hd
  rcases List.append_eq_nil.mp hd with ⟨-, hb⟩
  cases b
  simp_all

/-- A string with a nonempty left append operand is nonempty. -/
theorem append_ne_empty_left (a b : String) (h : a ≠ "") : a ++ b ≠ "" := by
  intro hc
  apply h
  have hd := congrArg String.data hc
  rw [String.data_append] at hd
  rcases List.append_eq_nil.mp hd with ⟨ha, -⟩
  cases a
  simp_all

/-- C2 counterexample: a non-numeric caller-supplied timeout (for example an
absent `timeout` argument, whose `undefined` coerces to NaN) propagates NaN
through the clamp, so the effective bound used by the execution engine is NaN
— not a value in the inclusive range [1000, 300000]; `setTimeout` then treats
the NaN delay as 0. -/
theorem timeout_clamp_nan_counterexample :
    timeoutMs .nan = .nan ∧ inTimeoutRange (timeoutMs .nan) = false := by
  decide

/-- C2 (amended): for every numeric (non-NaN) raw timeout input — negative,
zero, or excessively large included — the clamped bound used by the execution
engine is a finite value in the inclusive range [1000, 300000] milliseconds. -/
theorem timeout_clamp_in_range (raw : JSNum) (h : raw ≠ .nan) :
    ∃ n : Int, timeoutMs raw = .fin n ∧ 1000 ≤ n ∧ n ≤ 300000 := by
  cases raw with
  | nan => exact absurd rfl h
  | negInf => exact ⟨1000, rfl, by omega, by omega⟩
  | posInf => exact ⟨300000, rfl, by omega, by omega⟩
  | fin n => exact ⟨min (max n 1000) 300000, rfl, by omega, by omega⟩

/-- C2 witness: the raw timeout 50 is numeric and clamps into range. -/
theorem timeout_clamp_in_range_witness :
    JSNum.fin 50 ≠ JSNum.nan ∧
      ∃ n : Int, timeoutMs (.fin 50) = .fin n ∧ 1000 ≤ n ∧ n ≤ 300000 :=
  ⟨by decide, timeout_clamp_in_range (.fin 50) (by decide)⟩

/-- C4: for every capability name and argument map, dispatch returns a text
result (the return type of `runTool` is a total `String`, so no fault reaches
the caller): an unknown name yields the unknown-tool error text, a fault
thrown by a handler is caught at the dispatch boundary and converted to error
text, and a handler's normal result is returned as is. -/
theorem runTool_spec (tools : List (String × (ToolArgs → Except String String)))
    (name : String) (args : ToolArgs) :
    (tools.find? (·.1 == name) = none →
      runTool tools name args = "error: unknown tool " ++ name)
    ∧ (∀ t e, tools.find? (·.1 == name) = some t → t.2 args = .error e →
        runTool tools name args = "error: " ++ e)
    ∧ (∀ t s, tools.find? (·.1 == name) = some t → t.2 args = .ok s →
        runTool tools name args = s) := by
  refine ⟨fun h => ?_, fun t e h1 h2 => ?_, fun t s h1 h2 => ?_⟩
  · simp [runTool, h]
  · simp [runTool, h1, h2]
  · simp [runTool, h1, h2]

/-- C4 witness: dispatch of an unknown name, a throwing handler, and a normal
handler each produce the predicted text. -/
theorem runTool_spec_witness :
    runTool c4tools "zap" [] = "error: unknown tool " ++ "zap"
    ∧ runTool c4tools "boom" [] = "error: " ++ "Error: kaput"
    ∧ runTool c4tools "fine" [] = "done" :=
  ⟨(runTool_spec c4tools "zap" []).1 rfl,
   (runTool_spec c4tools "boom" []).2.1 ("boom", fun _ => .error "Error: kaput") "Error: kaput" rfl rfl,
   (runTool_spec c4tools "fine" []).2.2 ("fine", fun _ => .ok "done") "done" rfl rfl⟩

/-- C6: for every transcript, kill flag, clamped bound and exit code, the
execution engine's result is never the empty string; an empty transcript makes
the result begin with the literal sentinel "(no output)"; and exactly one
terminal status marker is appended at the end — the timeout marker when the
kill timer fired, the exit-code marker otherwise. -/
theorem execResult_spec (output : List String) (killed : Bool) (t : JSNum) (exitCode : Int) :
    execResult output killed t exitCode ≠ ""
    ∧ (output = [] → ∃ rest, execResult output killed t exitCode = "(no output)" ++ rest)
    ∧ (killed = true → execResult output killed t exitCode =
        (if String.intercalate "\n" output = "" then "(no output)"
         else String.intercalate "\n" output) ++ "\n[TIMEOUT after " ++ jsNumToString t ++ "ms]")
    ∧ (killed = false → execResult output killed t exitCode =
        (if String.intercalate "\n" output = "" then "(no output)"
         else String.intercalate "\n" output) ++ "\n[exit: " ++ toString exitCode ++ "]") := by
  have hi : String.intercalate "\n" ([] : List String) = "" := rfl
  refine ⟨?_, fun ho => ?_, fun hk => ?_, fun hk => ?_⟩
  · cases killed
    · simp only [execResult]
      exact append_ne_empty_right _ "]" (by decide)
    · simp only [execResult]
      exact append_ne_empty_right _ "ms]" (by decide)
  · subst ho
    cases killed
    · refine ⟨"\n[exit: " ++ toString exitCode ++ "]", ?_⟩
      apply String.ext
      simp [execResult, hi, String.data_append]
    · refine ⟨"\n[TIMEOUT after " ++ jsNumToString t ++ "ms]", ?_⟩
      apply String.ext
      simp [execResult, hi, String.data_append]
  · subst hk; simp [execResult]
  · subst hk; simp [execResult]

/-- C6 witness: a timed-out run with an empty transcript yields the sentinel
followed by the timeout marker, and a normal run with one transcript line
yields the transcript followed by the exit marker. -/
theorem execResult_spec_witness :
    execResult [] true (.fin 1000) 0 ≠ ""
    ∧ (∃ rest, execResult [] true (.fin 1000) 0 = "(no output)" ++ rest)
    ∧ execResult ["[stdout] hi"] false (.fin 5000) 3 =
        (if String.intercalate "\n" ["[stdout] hi"] = "" then "(no output)"
         else String.intercalate "\n" ["[stdout] hi"]) ++ "\n[exit: " ++ toString (3 : Int) ++ "]" :=
  ⟨(execResult_spec [] true (.fin 1000) 0).1,
   (execResult_spec [] true (.fin 1000) 0).2.1 rfl,
   (execResult_spec ["[stdout] hi"] false (.fin 5000) 3).2.2.2 rfl⟩

/-- C7: invoking the edit capability with an old string occurring three times
in the target file (JS counts occurrences as `text.split(old).length - 1`) and
no truthy replace-all flag returns the literal ambiguity error text and leaves
the file content unmodified. -/
theorem edit_ambiguous_three (cfg : Config) (fs : FS) (args : ToolArgs) (path text : String)
    (hp : getPath args = .ok path)
    (hf : fsRead fs path = .ok text)
    (hcount : (jsSplitLen text (jsToString (lookupArg args "old")) : Int) - 1 = 3)
    (hall : truthy (lookupArg args "all") = false) :
    edit cfg fs args = .ok ("error: old_string appears 3 times, use all=true", fs) := by
  have hinc : jsIncludes text (jsToString (lookupArg args "old")) = true := by
    by_cases ho : jsToString (lookupArg args "old") = ""
    · simp [jsIncludes, ho]
    · have hl : (splitList (jsToString (lookupArg args "old")).data text.data).length = 4 := by
        have := hcount
        rw [jsSplitLen, if_neg ho] at this
        omega
      simp [jsIncludes, hl]
  simp only [edit, hp, hf, bind, Except.bind, hinc, hcount, hall]
  norm_num
  rfl

/-- C7 witness: on the concrete three-occurrence file the edit capability
returns the literal ambiguity error and the filesystem is returned
unchanged. -/
theorem edit_ambiguous_three_witness :
    getPath c7args = .ok "f.txt"
    ∧ fsRead c7fs "f.txt" = .ok "axbxcx"
    ∧ (jsSplitLen "axbxcx" (jsToString (lookupArg c7args "old")) : Int) - 1 = 3
    ∧ truthy (lookupArg c7args "all") = false
    ∧ edit ⟨50, 10485760⟩ c7fs c7args =
        .ok ("error: old_string appears 3 times, use all=true", c7fs) :=
  ⟨rfl, rfl, by decide, rfl,
   edit_ambiguous_three ⟨50, 10485760⟩ c7fs c7args "f.txt" "axbxcx" rfl rfl (by decide) rfl⟩

/-- C9: schema generation over the closed capability set produces exactly one
schema entry per capability (the ten registry entries, in order); `required`
contains exactly the parameters whose declared type lacks the trailing "?"
sentinel; and every parameter declared numeric is exposed with type
"integer". -/
theorem makeSchema_spec :
    makeSchema.map (fun e => (e.name, e.required)) =
      [("read", ["path"]), ("write", ["path", "content"]),
       ("edit", ["path", "old", "new"]), ("glob", ["pattern"]),
       ("grep", ["pattern"]), ("exec", ["command", "timeout"]),
       ("list", ["path"]), ("delete", ["path"]), ("move", ["from", "to"]),
       ("copy", ["from", "to"])]
    ∧ makeSchema.length = TOOLS.length
    ∧ ((makeSchema.zip TOOLS).all fun et => et.2.2.2.all fun p =>
        (et.1.required.contains p.1) == !(jsEndsWith p.2 "?")) = true
    ∧ ((makeSchema.zip TOOLS).all fun et => et.2.2.2.all fun p =>
        !(jsReplaceFirst p.2 "?" "" == "number") ||
          ((et.1.propTypes.find? (·.1 == p.1)).map Prod.snd == some "integer")) = true := by
  refine ⟨by decide, by decide, by decide, by decide⟩

/-- C10: the result of every embedded file capability (read, write, edit) is
independent of the configuration — in particular of `MAX_FILE_SIZE`, which is
parsed at src/index.ts line 9 and consulted by no tool — and with no offset or
limit supplied the read capability returns the full line-numbered content of
the target file, whatever its size: every line of the file appears, numbered
from 1, with no maximum-file-size truncation. -/
theorem read_no_file_size_limit :
    (∀ (c c' : Config) (fs : FS) (args : ToolArgs),
        read c fs args = read c' fs args ∧ write c fs args = write c' fs args ∧
          edit c fs args = edit c' fs args)
    ∧ (∀ (c : Config) (fs : FS) (args : ToolArgs) (path text : String),
        getPath args = .ok path → fsRead fs path = .ok text →
        lookupArg args "offset" = none → lookupArg args "limit" = none →
        read c fs args = .ok (String.intercalate "\n"
          (((splitOnChar '\n' text.data).map String.mk).mapIdx fun i line =>
            padStart (toString ((i : Int) + 1)) 4 ++ "| " ++ line))) := by
  constructor
  · exact fun c c' fs args => ⟨rfl, rfl, rfl⟩
  · intro c fs args path text hp hf hoff hlim
    simp only [read, bind, Except.bind, hp, hf, hoff, hlim]
    simp [truthy, jsSlice1, sliceIdx, jsAdd, jsNumToString]
    rfl

/-- The split of a character sequence is never the empty list of pieces. -/
theorem splitOnChar_ne_nil (sep : Char) (s : List Char) : splitOnChar sep s ≠ [] := by
  induction s with
  | nil => simp [splitOnChar]
  | cons c rest ih =>
    simp only [splitOnChar]
    cases h : splitOnChar sep rest with
    | nil => exact absurd h ih
    | cons l ls => by_cases hc : c = sep <;> simp [hc]

/-- A nonempty character sequence never splits into exactly one empty
piece. -/
theorem splitOnChar_cons_ne_single_nil (sep c : Char) (rest : List Char) :
    splitOnChar sep (c :: rest) ≠ [[]] := by
  simp only [splitOnChar]
  cases h : splitOnChar sep rest with
  | nil => simp
  | cons l ls => by_cases hc : c = sep <;> simp [hc]

/-- One unfolding step of the split when the split of the tail is known. -/
theorem splitOnChar_cons_eq (sep c : Char) (rest l : List Char) (ls : List (List Char))
    (h : splitOnChar sep rest = l :: ls) :
    splitOnChar sep (c :: rest) = if c = sep then [] :: l :: ls else (c :: l) :: ls := by
  show (match splitOnChar sep rest with
    | [] => []
    | m :: ms => if c = sep then [] :: m :: ms else (c :: m) :: ms) = _
  rw [h]

/-- When a character sequence ends with the separator, the last piece of its
split is empty. -/
theorem splitOnChar_getLast_of_ends (sep : Char) :
    ∀ s : List Char, s.getLast? = some sep → (splitOnChar sep s).getLast? = some [] := by
  intro s
  induction s with
  | nil => intro h; simp at h
  | cons x s' ih =>
    intro h
    cases s' with
    | nil =>
      simp at h
      subst h
      simp [splitOnChar]
    | cons y s'' =>
      have ihl := ih h
      rcases hsplit : splitOnChar sep (y :: s'') with - | ⟨l, ls⟩
      · exact absurd hsplit (splitOnChar_ne_nil sep _)
      · rw [hsplit] at ihl
        rw [splitOnChar_cons_eq sep x (y :: s'') l ls hsplit]
        by_cases hx : x = sep
        · rw [if_pos hx]
          exact ihl
        · rw [if_neg hx]
          cases ls with
          | nil =>
            simp at ihl
            subst ihl
            exact absurd hsplit (splitOnChar_cons_ne_single_nil sep y s'')
          | cons m ms =>
            exact ihl

/-- Splitting a concatenation whose first part ends in an empty piece: the
split of the whole is the split of the first part without its trailing empty
piece, followed by the split of the second part. -/
theorem splitOnChar_append_of_getLast_nil (sep : Char) :
    ∀ a b : List Char, (splitOnChar sep a).getLast? = some [] →
      splitOnChar sep (a ++ b) = (splitOnChar sep a).dropLast ++ splitOnChar sep b := by
  intro a
  induction a with
  | nil => intro b h; simp [splitOnChar]
  | cons x a' ih =>
    intro b h
    rcases hsplit : splitOnChar sep a' with - | ⟨l, ls⟩
    · exact absurd hsplit (splitOnChar_ne_nil sep _)
    · rw [splitOnChar_cons_eq sep x a' l ls hsplit] at h
      rw [List.cons_append]
      by_cases hx : x = sep
      · rw [if_pos hx] at h
        have htail : (l :: ls).getLast? = some [] := h
        have ihb := ih b (by rw [hsplit]; exact htail)
        rcases hm : splitOnChar sep (a' ++ b) with - | ⟨m, ms⟩
        · exact absurd hm (splitOnChar_ne_nil sep _)
        · rw [splitOnChar_cons_eq sep x (a' ++ b) m ms hm, if_pos hx]
          rw [splitOnChar_cons_eq sep x a' l ls hsplit, if_pos hx]
          rw [hm, hsplit] at ihb
          rw [show ([] :: l :: ls).dropLast = [] :: (l :: ls).dropLast from rfl]
          rw [List.cons_append]
          rw [← ihb]
      · rw [if_neg hx] at h
        cases ls with
        | nil => simp at h
        | cons m' ms' =>
          have htail : (l :: m' :: ms').getLast? = some [] := h
          have ihb := ih b (by rw [hsplit]; exact htail)
          rcases hm : splitOnChar sep (a' ++ b) with - | ⟨m, ms⟩
          · exact absurd hm (splitOnChar_ne_nil sep _)
          · rw [splitOnChar_cons_eq sep x (a' ++ b) m ms hm, if_neg hx]
            rw [splitOnChar_cons_eq sep x a' l (m' :: ms') hsplit, if_neg hx]
            rw [hm, hsplit] at ihb
            have h2 : m :: ms = l :: ((m' :: ms').dropLast ++ splitOnChar sep b) := ihb
            have hmeq : m = l := by injection h2
            have hmseq : ms = (m' :: ms').dropLast ++ splitOnChar sep b := by injection h2
            rw [hmeq, hmseq]
            rfl

/-- C5 counterexample: with the decoded chunks "ab" and "c\n" the decoded
stream has exactly one complete line, "abc", but the transcript receives the
two entries "[stdout] ab" and "[stdout] c" and never the line "abc": a line
split across chunk boundaries is not appended exactly once, because each
drained chunk is split on newlines separately. -/
theorem readStream_split_line_counterexample :
    streamLines [['a', 'b'], ['c', '\n']] = [['a', 'b', 'c']]
    ∧ readStream ("[stdout] ".data) [['a', 'b'], ['c', '\n']] =
        ["[stdout] ".data ++ ['a', 'b'], "[stdout] ".data ++ ['c']]
    ∧ ("[stdout] ".data ++ ['a', 'b', 'c']) ∉
        readStream ("[stdout] ".data) [['a', 'b'], ['c', '\n']] := by
  refine ⟨by decide, by decide, by decide⟩

/-- C5 (amended): each decoded chunk is split on newlines and every nonempty
piece is appended to the transcript exactly once, tagged with its source
prefix, preserving order; consequently, whenever no line straddles a chunk
boundary (every chunk but the last ends with a newline), the transcript of one
channel is exactly the sequence of complete nonempty lines of the decoded
stream, each appended exactly once, in order, with its source tag. -/
theorem readStream_lines_amended (tag : List Char) (chunks : List (List Char))
    (h : ∀ c ∈ chunks.dropLast, c.getLast? = some '\n') :
    readStream tag chunks = (streamLines chunks).map (tag ++ ·) := by
  induction chunks with
  | nil => simp [readStream, streamLines, splitOnChar]
  | cons c rest ih =>
    cases rest with
    | nil => simp [readStream, streamLines, splitOnChar]
    | cons r rs =>
      have hc : c.getLast? = some '\n' := h c (by simp)
      have hrest : ∀ d ∈ (r :: rs).dropLast, d.getLast? = some '\n' := by
        intro d hd
        exact h d (List.mem_cons_of_mem _ hd)
      have hlast := splitOnChar_getLast_of_ends '\n' c hc
      rcases List.getLast?_eq_some_iff.mp hlast with ⟨init, hinit⟩
      have key := splitOnChar_append_of_getLast_nil '\n' c ((r :: rs).flatten) hlast
      have hstream : streamLines (c :: r :: rs) =
          init.filter (· ≠ []) ++ streamLines (r :: rs) := by
        unfold streamLines
        rw [show (c :: r :: rs).flatten = c ++ (r :: rs).flatten from rfl]
        rw [key, hinit, List.dropLast_concat, List.filter_append]
      have hread : readStream tag (c :: r :: rs) =
          ((splitOnChar '\n' c).filter (· ≠ [])).map (tag ++ ·) ++ readStream tag (r :: rs) := by
        simp [readStream]
      rw [hread, ih hrest, hstream, List.map_append, hinit, List.filter_append]
      simp

/-- C5 witness: two chunks, the first newline-terminated, produce exactly the
tagged complete lines of the decoded stream. -/
theorem readStream_lines_amended_witness :
    (∀ c ∈ [['a', '\n'], ['b', 'c']].dropLast, c.getLast? = some '\n')
    ∧ readStream ("[stdout] ".data) [['a', '\n'], ['b', 'c']] =
        (streamLines [['a', '\n'], ['b', 'c']]).map (("[stdout] ".data) ++ ·) :=
  ⟨by decide, readStream_lines_amended ("[stdout] ".data) [['a', '\n'], ['b', 'c']] (by decide)⟩

/-- C10 witness: two configurations differing only in `MAX_FILE_SIZE` yield
the same read result, and the result carries the full numbered content. -/
theorem read_no_file_size_limit_witness :
    read ⟨50, 100⟩ c10fs c10args = read ⟨50, 999999999⟩ c10fs c10args
    ∧ read ⟨50, 100⟩ c10fs c10args = .ok (String.intercalate "\n"
        (((splitOnChar '\n' ("l1\nl2\nl3" : String).data).map String.mk).mapIdx fun i line =>
          padStart (toString ((i : Int) + 1)) 4 ++ "| " ++ line)) :=
  ⟨(read_no_file_size_limit.1 ⟨50, 100⟩ ⟨50, 999999999⟩ c10fs c10args).1,
   read_no_file_size_limit.2 ⟨50, 100⟩ c10fs c10args "big.txt" "l1\nl2\nl3" rfl rfl rfl rfl⟩

/-- Invocation identifiers distribute over conversation concatenation. -/
theorem invocationIds_append (a b : List Message) :
    invocationIds (a ++ b) = invocationIds a ++ invocationIds b := by
  simp [invocationIds]

/-- Result identifiers distribute over conversation concatenation. -/
theorem resultIds_append (a b : List Message) :
    resultIds (a ++ b) = resultIds a ++ resultIds b := by
  simp [resultIds]

/-- The results collected from one response carry exactly the identifiers of
its well-formed invocation blocks, in order. -/
theorem mkToolResults_ids (runT : String → ToolArgs → String) (blocks : List ContentBlock) :
    (mkToolResults runT blocks).map (·.tool_use_id) =
      (blocks.filter isToolUse).map (fun b => b.id.getD "") := by
  induction blocks with
  | nil => rfl
  | cons b bs ih =>
    by_cases hb : isToolUse b = true
    · simpa [mkToolResults, List.filterMap_cons, List.filter_cons, hb] using ih
    · simpa [mkToolResults, List.filterMap_cons, List.filter_cons, hb] using ih

/-- An empty collected-results list means the response had no well-formed
invocation blocks. -/
theorem mkToolResults_empty (runT : String → ToolArgs → String) (blocks : List ContentBlock)
    (h : mkToolResults runT blocks = []) : blocks.filter isToolUse = [] := by
  have hids := mkToolResults_ids runT blocks
  rw [h] at hids
  exact List.map_eq_nil_iff.mp hids.symm

/-- One round of the loop body preserves the balanced-conversation invariant:
the assistant turn's well-formed invocation identifiers are exactly the
identifiers of the result turn it appends (or empty when the round finishes
the request). -/
theorem doRound_balanced (runT : String → ToolArgs → String)
    (resp : Except String APIResponse) (msgs : List Message) (tin tout : Nat)
    (h : balanced msgs) :
    (∀ m i o, doRound runT resp msgs tin tout = .finished m i o → balanced m)
    ∧ (∀ m i o, doRound runT resp msgs tin tout = .next m i o → balanced m) := by
  cases resp with
  | error e =>
    exact ⟨fun m i o hm => by simp [doRound] at hm,
           fun m i o hm => by simp [doRound] at hm⟩
  | ok r =>
    constructor
    · intro m i o hm
      simp only [doRound] at hm
      split at hm
      · rename_i he
        injection hm with hm1
        subst hm1
        have hempty : mkToolResults runT (r.content.getD []) = [] :=
          List.isEmpty_iff.mp he
        have hfilter := mkToolResults_empty runT (r.content.getD []) hempty
        unfold balanced
        rw [invocationIds_append, resultIds_append, h]
        simp [invocationIds, resultIds, hfilter]
      · exact absurd hm (by simp)
    · intro m i o hm
      simp only [doRound] at hm
      split at hm
      · exact absurd hm (by simp)
      · injection hm with hm1
        subst hm1
        unfold balanced
        rw [invocationIds_append, invocationIds_append,
          resultIds_append, resultIds_append, h]
        simp [invocationIds, resultIds, mkToolResults_ids]

/-- The loop exits immediately, with the state as the completed rounds left
it and no further transport call, whenever the cancellation flag is observed
set at the loop boundary. -/
theorem runLoop_flag_eq (runT : String → ToolArgs → String) (sig : Nat → Bool)
    (script : List (Except String APIResponse)) (round : Nat) (flag : Bool)
    (msgs : List Message) (tin tout : Nat) (h : (flag || sig round) = true) :
    runLoop runT sig script round flag msgs tin tout =
      (some ⟨msgs, tin, tout, none, true⟩, []) := by
  cases script <;> simp [runLoop, h]

/-- One unfolding of the loop when the cancellation flag is clear at the
boundary: the round runs to completion and the loop proceeds from its
outcome. -/
theorem runLoop_cons_eq (runT : String → ToolArgs → String) (sig : Nat → Bool)
    (r : Except String APIResponse) (rest : List (Except String APIResponse))
    (round : Nat) (flag : Bool) (msgs : List Message) (tin tout : Nat)
    (h : (flag || sig round) = false) :
    runLoop runT sig (r :: rest) round flag msgs tin tout =
      match doRound runT r msgs tin tout with
      | .throws e => (some ⟨msgs, tin, tout, some e, false⟩, [msgs])
      | .finished m i o => (some ⟨m, i, o, none, false⟩, [msgs])
      | .next m i o =>
        ((runLoop runT sig rest (round + 1) false m i o).1,
          msgs :: (runLoop runT sig rest (round + 1) false m i o).2) := by
  simp [runLoop, h]

/-- Empty-script unfolding of the loop when the flag is clear: the modelled
script ran out. -/
theorem runLoop_nil_eq (runT : String → ToolArgs → String) (sig : Nat → Bool)
    (round : Nat) (flag : Bool) (msgs : List Message) (tin tout : Nat)
    (h : (flag || sig round) = false) :
    runLoop runT sig [] round flag msgs tin tout = (none, []) := by
  simp [runLoop, h]

/-- Every state the agent loop reaches, and every conversation snapshot it
passes to the transport, keeps the balanced-conversation invariant. -/
theorem runLoop_balanced (runT : String → ToolArgs → String) (sig : Nat → Bool) :
    ∀ (script : List (Except String APIResponse)) (round : Nat) (flag : Bool)
      (msgs : List Message) (tin tout : Nat), balanced msgs →
      (∀ res, (runLoop runT sig script round flag msgs tin tout).1 = some res →
        balanced res.msgs)
      ∧ (∀ c ∈ (runLoop runT sig script round flag msgs tin tout).2, balanced c) := by
  intro script
  induction script with
  | nil =>
    intro round flag msgs tin tout h
    cases hf : (flag || sig round) with
    | true =>
      rw [runLoop_flag_eq runT sig [] round flag msgs tin tout hf]
      refine ⟨fun res hres => ?_, by simp⟩
      obtain rfl := Option.some.inj hres
      exact h
    | false =>
      rw [runLoop_nil_eq runT sig round flag msgs tin tout hf]
      exact ⟨fun res hres => by simp at hres, by simp⟩
  | cons r rest ih =>
    intro round flag msgs tin tout h
    cases hf : (flag || sig round) with
    | true =>
      rw [runLoop_flag_eq runT sig (r :: rest) round flag msgs tin tout hf]
      refine ⟨fun res hres => ?_, by simp⟩
      obtain rfl := Option.some.inj hres
      exact h
    | false =>
      rw [runLoop_cons_eq runT sig r rest round flag msgs tin tout hf]
      rcases hd : doRound runT r msgs tin tout with e | ⟨m, i, o⟩ | ⟨m, i, o⟩ <;>
        simp only [hd]
      · refine ⟨fun res hres => ?_, ?_⟩
        · obtain rfl := Option.some.inj hres
          exact h
        · intro c hc
          simp at hc
          subst hc
          exact h
      · have hb := (doRound_balanced runT r msgs tin tout h).1 m i o hd
        refine ⟨fun res hres => ?_, ?_⟩
        · obtain rfl := Option.some.inj hres
          exact hb
        · intro c hc
          simp at hc
          subst hc
          exact h
      · have hb := (doRound_balanced runT r msgs tin tout h).2 m i o hd
        have ihm := ih (round + 1) false m i o hb
        refine ⟨ihm.1, ?_⟩
        intro c hc
        rcases List.mem_cons.mp hc with rfl | hc2
        · exact h
        · exact ihm.2 c hc2

/-- One REPL step preserves the balanced-conversation invariant of the state
and of every transport snapshot it records. -/
theorem stepInput_balanced (runT : String → ToolArgs → String) (st : ReplState)
    (line : String) (sig : Nat → Bool) (script : List (Except String APIResponse))
    (h : balanced st.messages) :
    ∀ st' calls err, stepInput runT st line sig script = .cont st' calls err →
      balanced st'.messages ∧ ∀ c ∈ calls, balanced c := by
  intro st' calls err hstep
  unfold stepInput at hstep
  by_cases hq : (jsTrim line == "/q" || jsTrim line == "exit") = true
  · rw [if_pos hq] at hstep
    exact absurd hstep (by simp)
  · rw [if_neg hq] at hstep
    by_cases hcl : (jsTrim line == "/c") = true
    · rw [if_pos hcl] at hstep
      injection hstep with h1 h2 h3
      subst h1
      subst h2
      exact ⟨rfl, by simp⟩
    · rw [if_neg hcl] at hstep
      by_cases hemp : (jsTrim line == "") = true
      · rw [if_pos hemp] at hstep
        injection hstep with h1 h2 h3
        subst h1
        subst h2
        exact ⟨h, by simp⟩
      · rw [if_neg hemp] at hstep
        have hb : balanced (st.messages ++ [⟨"user", .str (jsTrim line)⟩]) := by
          unfold balanced
          rw [invocationIds_append, resultIds_append, h]
          simp [invocationIds, resultIds]
        have hlb := runLoop_balanced runT sig script 0 false
          (st.messages ++ [⟨"user", .str (jsTrim line)⟩])
          st.totalInputTokens st.totalOutputTokens hb
        rcases hrl : runLoop runT sig script 0 false
            (st.messages ++ [⟨"user", .str (jsTrim line)⟩])
            st.totalInputTokens st.totalOutputTokens with ⟨ores, tr⟩
        rw [hrl] at hstep hlb
        cases ores with
        | none => simp at hstep
        | some res =>
          simp only at hstep
          injection hstep with h1 h2 h3
          subst h1
          subst h2
          exact ⟨hlb.1 res rfl, hlb.2⟩

/-- Every modelled session keeps the balanced-conversation invariant in its
final state and in every transport snapshot it issued. -/
theorem runSession_balanced (runT : String → ToolArgs → String) :
    ∀ (inputs : List (String × (Nat → Bool) × List (Except String APIResponse)))
      (st : ReplState), balanced st.messages →
      ∀ stf calls, runSession runT st inputs = some (stf, calls) →
        balanced stf.messages ∧ ∀ c ∈ calls, balanced c := by
  intro inputs
  induction inputs with
  | nil =>
    intro st h stf calls hs
    simp only [runSession] at hs
    injection hs with hs1
    injection hs1 with hs2 hs3
    subst hs2
    subst hs3
    exact ⟨h, by simp⟩
  | cons inp rest ih =>
    intro st h stf calls hs
    obtain ⟨line, sig, script⟩ := inp
    simp only [runSession] at hs
    rcases hstep : stepInput runT st line sig script with - | ⟨st', calls1, err⟩ | -
    · rw [hstep] at hs
      simp only at hs
      injection hs with hs1
      injection hs1 with hs2 hs3
      subst hs2
      subst hs3
      exact ⟨h, by simp⟩
    · rw [hstep] at hs
      have h1 := stepInput_balanced runT st line sig script h st' calls1 err hstep
      have hs2 : (match runSession runT st' rest with
          | none => none
          | some (stf2, calls2) => some (stf2, calls1 ++ calls2)) = some (stf, calls) := hs
      rcases hrec : runSession runT st' rest with - | ⟨stf', calls2⟩
      · rw [hrec] at hs2
        exact absurd hs2 (by simp)
      · rw [hrec] at hs2
        have hs3 : some (stf', calls1 ++ calls2) = some (stf, calls) := hs2
        injection hs3 with hs4
        injection hs4 with hs5 hs6
        subst hs5
        subst hs6
        have h2 := ih st' h1.1 stf' calls2 hrec
        refine ⟨h2.1, ?_⟩
        intro c hc
        rcases List.mem_append.mp hc with hc1 | hc2
        · exact h1.2 c hc1
        · exact h2.2 c hc2
    · rw [hstep] at hs
      simp at hs

/-- C1: over any modelled session started from the empty conversation, every
conversation snapshot passed to the transport, and the final conversation,
carries invocation identifiers equal — in order and multiplicity — to the
result identifiers: every well-formed capability-invocation segment of a turn
is answered by exactly one capability-result segment with the same identifier,
appended before the next transport call is issued, and over the whole session
the invocation and result segments pair up with no orphan on either side. -/
theorem session_invocations_matched (runT : String → ToolArgs → String)
    (inputs : List (String × (Nat → Bool) × List (Except String APIResponse)))
    (stf : ReplState) (calls : List (List Message))
    (h : runSession runT ⟨[], 0, 0, false⟩ inputs = some (stf, calls)) :
    (∀ c ∈ calls, invocationIds c = resultIds c)
    ∧ invocationIds stf.messages = resultIds stf.messages := by
  have hb := runSession_balanced runT inputs ⟨[], 0, 0, false⟩ rfl stf calls h
  exact ⟨hb.2, hb.1⟩

/-- C3 counterexample: with one tool-requesting response and cancellation
arriving before the second loop-boundary check, the loop ends the request with
the pending tool-result turn appended after the assistant turn — the final
conversation is not the claimed "assistant turn only" — while the transport
was called exactly once. -/
theorem cancellation_counterexample :
    ((runLoop demoRunT sigAfterFirst demoScript 0 false demoStart 0 0).1.map LoopRes.msgs) =
      some (demoStart ++ [demoAssistant, demoResults])
    ∧ demoStart ++ [demoAssistant, demoResults] ≠ demoStart ++ [demoAssistant]
    ∧ (runLoop demoRunT sigAfterFirst demoScript 0 false demoStart 0 0).2 = [demoStart] := by
  refine ⟨rfl, by decide, rfl⟩

/-- C3 (amended): cancellation is cooperative and observed only at the loop
boundary.  (i) Whenever the flag is observed set at the boundary the loop
exits at once, with the conversation and counters exactly as the completed
rounds left them and no further transport call.  (ii) A round that produced
tool invocations always completes: it appends the assistant turn and then the
collected tool-result user turn, and only afterwards can the flag end the
loop, (iii) in which case the request ends with both turns appended and
exactly one transport call made for that round.  (iv) The flag is cleared
when a new non-empty (non-command) user utterance starts a request: the
request's outcome is independent of the flag value left by earlier
interrupts. -/
theorem cancellation_cooperative :
    (∀ (runT : String → ToolArgs → String) (sig : Nat → Bool)
       (script : List (Except String APIResponse)) (round : Nat) (flag : Bool)
       (msgs : List Message) (tin tout : Nat), (flag || sig round) = true →
        runLoop runT sig script round flag msgs tin tout =
          (some ⟨msgs, tin, tout, none, true⟩, []))
    ∧ (∀ (runT : String → ToolArgs → String) (r : APIResponse) (msgs : List Message)
         (tin tout : Nat) (m : List Message) (i o : Nat),
        doRound runT (.ok r) msgs tin tout = .next m i o →
        m = msgs ++ [⟨"assistant", .blocks (r.content.getD [])⟩,
                     ⟨"user", .results (mkToolResults runT (r.content.getD []))⟩]
          ∧ mkToolResults runT (r.content.getD []) ≠ [])
    ∧ (∀ (runT : String → ToolArgs → String) (sig : Nat → Bool)
         (r : Except String APIResponse) (rest : List (Except String APIResponse))
         (round : Nat) (flag : Bool) (msgs : List Message) (tin tout : Nat)
         (m : List Message) (i o : Nat),
        (flag || sig round) = false → sig (round + 1) = true →
        doRound runT r msgs tin tout = .next m i o →
        runLoop runT sig (r :: rest) round flag msgs tin tout =
          (some ⟨m, i, o, none, true⟩, [msgs]))
    ∧ (∀ (runT : String → ToolArgs → String) (msgs : List Message) (tin tout : Nat)
         (line : String) (sig : Nat → Bool) (script : List (Except String APIResponse))
         (s1 s2 : Bool),
        jsTrim line ≠ "/c" → jsTrim line ≠ "" →
        stepInput runT ⟨msgs, tin, tout, s1⟩ line sig script =
          stepInput runT ⟨msgs, tin, tout, s2⟩ line sig script) := by
  refine ⟨?_, ?_, ?_, ?_⟩
  · intro runT sig script round flag msgs tin tout h
    exact runLoop_flag_eq runT sig script round flag msgs tin tout h
  · intro runT r msgs tin tout m i o hm
    simp only [doRound] at hm
    split at hm
    · exact absurd hm (by simp)
    · rename_i he
      injection hm with hm1
      subst hm1
      constructor
      · simp
      · simpa using he
  · intro runT sig r rest round flag msgs tin tout m i o h1 h2 hd
    rw [runLoop_cons_eq runT sig r rest round flag msgs tin tout h1]
    simp only [hd]
    rw [runLoop_flag_eq runT sig rest (round + 1) false m i o (by simp [h2])]
  · intro runT msgs tin tout line sig script s1 s2 hc he
    unfold stepInput
    by_cases hq : (jsTrim line == "/q" || jsTrim line == "exit") = true
    · rw [if_pos hq, if_pos hq]
    · rw [if_neg hq, if_neg hq]
      have hcl : ¬((jsTrim line == "/c") = true) := by simpa using hc
      have hemp : ¬((jsTrim line == "") = true) := by simpa using he
      rw [if_neg hcl, if_neg hcl, if_neg hemp, if_neg hemp]

/-- C3 witness: the four cancellation facts at concrete inputs — flag-exit
with state kept and no call, the completed round's two appended turns, the
interrupted request ending after exactly one call, and a request outcome
independent of a stale flag. -/
theorem cancellation_cooperative_witness :
    runLoop demoRunT sigAfterFirst [] 1 true [] 3 4 = (some ⟨[], 3, 4, none, true⟩, [])
    ∧ (demoStart ++ [demoAssistant, demoResults] =
        demoStart ++ [⟨"assistant", .blocks [demoBlock]⟩,
          ⟨"user", .results (mkToolResults demoRunT [demoBlock])⟩]
        ∧ mkToolResults demoRunT [demoBlock] ≠ [])
    ∧ runLoop demoRunT sigAfterFirst demoScript 0 false demoStart 0 0 =
        (some ⟨demoStart ++ [demoAssistant, demoResults], 0, 0, none, true⟩, [demoStart])
    ∧ stepInput demoRunT ⟨[], 0, 0, true⟩ "x" sigAfterFirst [] =
        stepInput demoRunT ⟨[], 0, 0, false⟩ "x" sigAfterFirst [] :=
  ⟨cancellation_cooperative.1 demoRunT sigAfterFirst [] 1 true [] 3 4 rfl,
   cancellation_cooperative.2.1 demoRunT { content := some [demoBlock] } demoStart 0 0
     (demoStart ++ [demoAssistant, demoResults]) 0 0 rfl,
   cancellation_cooperative.2.2.1 demoRunT sigAfterFirst (.ok { content := some [demoBlock] })
     [] 0 false demoStart 0 0 (demoStart ++ [demoAssistant, demoResults]) 0 0 rfl rfl rfl,
   cancellation_cooperative.2.2.2 demoRunT [] 0 0 "x" sigAfterFirst [] true false
     (by decide) (by decide)⟩

/-- C1 witness: a concrete one-request session whose first response invokes a
capability and whose second is text-only; every transport snapshot and the
final conversation pair each invocation with its result. -/
theorem session_invocations_matched_witness :
    runSession demoRunT ⟨[], 0, 0, false⟩ demoInputs =
      some (⟨[⟨"user", .str "hi"⟩, demoAssistant, demoResults,
              ⟨"assistant", .blocks [demoText]⟩], 5, 6, false⟩,
            [[⟨"user", .str "hi"⟩], [⟨"user", .str "hi"⟩, demoAssistant, demoResults]])
    ∧ invocationIds [⟨"user", .str "hi"⟩] = resultIds [⟨"user", .str "hi"⟩]
    ∧ invocationIds [⟨"user", .str "hi"⟩, demoAssistant, demoResults] =
        resultIds [⟨"user", .str "hi"⟩, demoAssistant, demoResults]
    ∧ invocationIds [⟨"user", .str "hi"⟩, demoAssistant, demoResults,
          ⟨"assistant", .blocks [demoText]⟩] =
        resultIds [⟨"user", .str "hi"⟩, demoAssistant, demoResults,
          ⟨"assistant", .blocks [demoText]⟩] := by
  have h := session_invocations_matched demoRunT demoInputs
    ⟨[⟨"user", .str "hi"⟩, demoAssistant, demoResults,
      ⟨"assistant", .blocks [demoText]⟩], 5, 6, false⟩
    [[⟨"user", .str "hi"⟩], [⟨"user", .str "hi"⟩, demoAssistant, demoResults]] rfl
  exact ⟨rfl, h.1 _ (by simp), h.1 _ (by simp), h.2⟩

/-- One round never decreases the usage totals. -/
theorem doRound_totals (runT : String → ToolArgs → String)
    (resp : Except String APIResponse) (msgs : List Message) (tin tout : Nat) :
    (∀ m i o, doRound runT resp msgs tin tout = .finished m i o → tin ≤ i ∧ tout ≤ o)
    ∧ (∀ m i o, doRound runT resp msgs tin tout = .next m i o → tin ≤ i ∧ tout ≤ o) := by
  cases resp with
  | error e =>
    exact ⟨fun m i o hm => by simp [doRound] at hm,
           fun m i o hm => by simp [doRound] at hm⟩
  | ok r =>
    constructor
    · intro m i o hm
      simp only [doRound] at hm
      split at hm
      · injection hm with hm1 hm2 hm3
        subst hm2
        subst hm3
        exact ⟨Nat.le_add_right _ _, Nat.le_add_right _ _⟩
      · exact absurd hm (by simp)
    · intro m i o hm
      simp only [doRound] at hm
      split at hm
      · exact absurd hm (by simp)
      · injection hm with hm1 hm2 hm3
        subst hm2
        subst hm3
        exact ⟨Nat.le_add_right _ _, Nat.le_add_right _ _⟩

/-- The agent loop never decreases the usage totals. -/
theorem runLoop_mono (runT : String → ToolArgs → String) (sig : Nat → Bool) :
    ∀ (script : List (Except String APIResponse)) (round : Nat) (flag : Bool)
      (msgs : List Message) (tin tout : Nat) (res : LoopRes) (tr : List (List Message)),
      runLoop runT sig script round flag msgs tin tout = (some res, tr) →
      tin ≤ res.tin ∧ tout ≤ res.tout := by
  intro script
  induction script with
  | nil =>
    intro round flag msgs tin tout res tr h
    cases hf : (flag || sig round) with
    | true =>
      rw [runLoop_flag_eq runT sig [] round flag msgs tin tout hf] at h
      injection h with h1 h2
      obtain rfl := Option.some.inj h1
      exact ⟨Nat.le_refl _, Nat.le_refl _⟩
    | false =>
      rw [runLoop_nil_eq runT sig round flag msgs tin tout hf] at h
      injection h with h1 h2
      exact absurd h1 (by simp)
  | cons r rest ih =>
    intro round flag msgs tin tout res tr h
    cases hf : (flag || sig round) with
    | true =>
      rw [runLoop_flag_eq runT sig (r :: rest) round flag msgs tin tout hf] at h
      injection h with h1 h2
      obtain rfl := Option.some.inj h1
      exact ⟨Nat.le_refl _, Nat.le_refl _⟩
    | false =>
      rw [runLoop_cons_eq runT sig r rest round flag msgs tin tout hf] at h
      rcases hd : doRound runT r msgs tin tout with e | ⟨m, i, o⟩ | ⟨m, i, o⟩ <;>
        simp only [hd] at h
      · injection h with h1 h2
        obtain rfl := Option.some.inj h1
        exact ⟨Nat.le_refl _, Nat.le_refl _⟩
      · injection h with h1 h2
        obtain rfl := Option.some.inj h1
        exact (doRound_totals runT r msgs tin tout).1 m i o hd
      · injection h with h1 h2
        have hdt := (doRound_totals runT r msgs tin tout).2 m i o hd
        rcases hrec : runLoop runT sig rest (round + 1) false m i o with ⟨ores, tr2⟩
        rw [hrec] at h1
        cases ores with
        | none => exact absurd h1 (by simp)
        | some res2 =>
          obtain rfl := Option.some.inj h1
          have := ih (round + 1) false m i o res2 tr2 hrec
          exact ⟨Nat.le_trans hdt.1 this.1, Nat.le_trans hdt.2 this.2⟩

/-- The first conversation snapshot a request's loop passes to the transport
is the conversation the loop started from. -/
theorem runLoop_calls_head (runT : String → ToolArgs → String) (sig : Nat → Bool)
    (script : List (Except String APIResponse)) (round : Nat) (flag : Bool)
    (msgs : List Message) (tin tout : Nat) (p : Option LoopRes)
    (c : List Message) (cs : List (List Message))
    (h : runLoop runT sig script round flag msgs tin tout = (p, c :: cs)) : c = msgs := by
  cases hf : (flag || sig round) with
  | true =>
    rw [runLoop_flag_eq runT sig script round flag msgs tin tout hf] at h
    injection h with h1 h2
    exact absurd h2 (by simp)
  | false =>
    cases script with
    | nil =>
      rw [runLoop_nil_eq runT sig round flag msgs tin tout hf] at h
      injection h with h1 h2
      exact absurd h2 (by simp)
    | cons r rest =>
      rw [runLoop_cons_eq runT sig r rest round flag msgs tin tout hf] at h
      rcases hd : doRound runT r msgs tin tout with e | ⟨m, i, o⟩ | ⟨m, i, o⟩ <;>
        simp only [hd] at h
      · injection h with h1 h2
        injection h2 with h3 h4
        exact h3.symm
      · injection h with h1 h2
        injection h2 with h3 h4
        exact h3.symm
      · injection h with h1 h2
        injection h2 with h3 h4
        exact h3.symm

/-- C8: the two usage counters only grow.  (i) A successful transport round
adds exactly the response's usage units to each counter.  (ii) Any REPL step
other than the clear command never decreases either counter.  (iii) The clear
command resets both counters to zero and empties the conversation (touching
nothing else).  (iv) From an empty conversation, the first transport call of
the next request sees exactly the new user turn — no prior turns. -/
theorem usage_counters_spec :
    (∀ (runT : String → ToolArgs → String) (r : APIResponse) (msgs : List Message)
       (tin tout : Nat) (m : List Message) (i o : Nat),
        (doRound runT (.ok r) msgs tin tout = .finished m i o ∨
         doRound runT (.ok r) msgs tin tout = .next m i o) →
        i = tin + ((r.usage.map Prod.fst).getD 0) ∧
          o = tout + ((r.usage.map Prod.snd).getD 0))
    ∧ (∀ (runT : String → ToolArgs → String) (st : ReplState) (line : String)
         (sig : Nat → Bool) (script : List (Except String APIResponse))
         (st' : ReplState) (calls : List (List Message)) (err : Option String),
        stepInput runT st line sig script = .cont st' calls err → jsTrim line ≠ "/c" →
        st.totalInputTokens ≤ st'.totalInputTokens ∧
          st.totalOutputTokens ≤ st'.totalOutputTokens)
    ∧ (∀ (runT : String → ToolArgs → String) (st : ReplState) (line : String)
         (sig : Nat → Bool) (script : List (Except String APIResponse)),
        jsTrim line = "/c" →
        stepInput runT st line sig script = .cont ⟨[], 0, 0, st.stopRequested⟩ [] none)
    ∧ (∀ (runT : String → ToolArgs → String) (st : ReplState) (line : String)
         (sig : Nat → Bool) (script : List (Except String APIResponse))
         (st' : ReplState) (c : List Message) (cs : List (List Message)) (err : Option String),
        st.messages = [] →
        stepInput runT st line sig script = .cont st' (c :: cs) err →
        c = [⟨"user", .str (jsTrim line)⟩]) := by
  refine ⟨?_, ?_, ?_, ?_⟩
  · intro runT r msgs tin tout m i o hm
    rcases hm with hm | hm <;>
    · simp only [doRound] at hm
      split at hm
      all_goals first
        | (injection hm with hm1 hm2 hm3; subst hm2; subst hm3; exact ⟨rfl, rfl⟩)
        | exact absurd hm (by simp)
  · intro runT st line sig script st' calls err hstep hcl
    unfold stepInput at hstep
    by_cases hq : (jsTrim line == "/q" || jsTrim line == "exit") = true
    · rw [if_pos hq] at hstep
      exact absurd hstep (by simp)
    · rw [if_neg hq] at hstep
      have hcl' : ¬((jsTrim line == "/c") = true) := by simpa using hcl
      rw [if_neg hcl'] at hstep
      by_cases hemp : (jsTrim line == "") = true
      · rw [if_pos hemp] at hstep
        injection hstep with h1 h2 h3
        subst h1
        exact ⟨Nat.le_refl _, Nat.le_refl _⟩
      · rw [if_neg hemp] at hstep
        rcases hrl : runLoop runT sig script 0 false
            (st.messages ++ [⟨"user", .str (jsTrim line)⟩])
            st.totalInputTokens st.totalOutputTokens with ⟨ores, tr⟩
        rw [hrl] at hstep
        cases ores with
        | none => simp at hstep
        | some res =>
          simp only at hstep
          injection hstep with h1 h2 h3
          subst h1
          exact runLoop_mono runT sig script 0 false
            (st.messages ++ [⟨"user", .str (jsTrim line)⟩])
            st.totalInputTokens st.totalOutputTokens res tr hrl
  · intro runT st line sig script hcl
    unfold stepInput
    rw [hcl]
    rw [if_neg (by decide), if_pos (by decide)]
  · intro runT st line sig script st' c cs err hmsgs hstep
    unfold stepInput at hstep
    by_cases hq : (jsTrim line == "/q" || jsTrim line == "exit") = true
    · rw [if_pos hq] at hstep
      exact absurd hstep (by simp)
    · rw [if_neg hq] at hstep
      by_cases hcl : (jsTrim line == "/c") = true
      · rw [if_pos hcl] at hstep
        injection hstep with h1 h2 h3
        exact absurd h2 (by simp)
      · rw [if_neg hcl] at hstep
        by_cases hemp : (jsTrim line == "") = true
        · rw [if_pos hemp] at hstep
          injection hstep with h1 h2 h3
          exact absurd h2 (by simp)
        · rw [if_neg hemp] at hstep
          rcases hrl : runLoop runT sig script 0 false
              (st.messages ++ [⟨"user", .str (jsTrim line)⟩])
              st.totalInputTokens st.totalOutputTokens with ⟨ores, tr⟩
          rw [hrl] at hstep
          cases ores with
          | none => simp at hstep
          | some res =>
            simp only at hstep
            injection hstep with h1 h2 h3
            subst h2
            have := runLoop_calls_head runT sig script 0 false
              (st.messages ++ [⟨"user", .str (jsTrim line)⟩])
              st.totalInputTokens st.totalOutputTokens (some res) c cs hrl
            rw [this, hmsgs]
            rfl

/-- C8 witness: the four usage-counter facts at concrete inputs — exact
accumulation of one response's usage, monotonicity across a normal request,
the clear command's reset of counters and conversation, and the first
post-clear transport snapshot holding only the new user turn. -/
theorem usage_counters_spec_witness :
    ((4 : Nat) = 1 + 3 ∧ (7 : Nat) = 2 + 5)
    ∧ ((0 : Nat) ≤ 3 ∧ (0 : Nat) ≤ 5)
    ∧ stepInput demoRunT ⟨[demoAssistant], 7, 8, true⟩ " /c " sigAfterFirst [] =
        .cont ⟨[], 0, 0, true⟩ [] none
    ∧ [(⟨"user", .str "hi"⟩ : Message)] = [⟨"user", .str (jsTrim "hi")⟩] := by
  refine ⟨?_, ?_, ?_, ?_⟩
  · exact usage_counters_spec.1 demoRunT { content := some [], usage := some (3, 5) }
      [] 1 2 [⟨"assistant", .blocks []⟩] 4 7 (Or.inl rfl)
  · exact usage_counters_spec.2.1 demoRunT ⟨[], 0, 0, false⟩ "hi" (fun _ => false)
      [.ok { content := some [], usage := some (3, 5) }]
      ⟨[⟨"user", .str "hi"⟩, ⟨"assistant", .blocks []⟩], 3, 5, false⟩
      [[⟨"user", .str "hi"⟩]] none rfl (by decide)
  · exact usage_counters_spec.2.2.1 demoRunT ⟨[demoAssistant], 7, 8, true⟩ " /c "
      sigAfterFirst [] (by decide)
  · exact (usage_counters_spec.2.2.2 demoRunT ⟨[], 0, 0, false⟩ "hi" (fun _ => false)
      [.ok { content := some [], usage := some (3, 5) }]
      ⟨[⟨"user", .str "hi"⟩, ⟨"assistant", .blocks []⟩], 3, 5, false⟩
      [⟨"user", .str "hi"⟩] [] none rfl rfl).symm ▸ rfl

end Nanocode
